import Mathlib

/-!
Verification of the vibechess match-execution engine against its
natural-language specification.

The definitions below are shallow embeddings of the Python source:

* `src/backend/llm_service.py` — `VALID_EMOTIONS`, `parse_chess_response`,
  `call_claude_cli` (the oracle call);
* `src/backend/game_engine.py` — `parse_llm_response` (legacy parser),
  `validate_and_get_move`, the move-resolution / fallback step of
  `run_game`, the session-id update, the move-number bookkeeping and the
  sequence of persisted `(status, is_paused)` snapshots;
* `src/sse_manager.py` — `SSEManager` (subscribe / broadcast /
  close_game / get_subscriber_count);
* `src/schemas.py` — the `MoveEvent` pydantic model.

Python strings are modelled as `String` / `List Char` (ASCII scope: the
`re.IGNORECASE` flag and the `\s`, `\S`, `\w` character classes are
modelled over ASCII, which covers every string the engine produces and
every literal appearing in the theorems).  Regular-expression searches
are modelled by direct scanners that implement the exact backtracking
semantics of the concrete patterns used by the source, as explained at
each definition.  Python exceptions are modelled with `Except`; outcomes
of external processes (the oracle subprocess, the JSON decoder, the
chess library's SAN/UCI parsers) are modelled as explicit parameters so
that each repository function stays a faithful total translation of its
`try`/`except` structure.
-/

/-- Python `str.strip()` / `\s` whitespace set, ASCII scope:
space, tab, newline, carriage return, vertical tab, form feed. -/
def isPySpace (c : Char) : Bool :=
  c == ' ' || c == '\t' || c == '\n' || c == '\r' ||
    c == Char.ofNat 11 || c == Char.ofNat 12

/-- ASCII lower-casing, used to model `re.IGNORECASE`. -/
def lowerAscii (c : Char) : Char :=
  if 'A' ≤ c ∧ c ≤ 'Z' then Char.ofNat (c.toNat + 32) else c

/-- Case-insensitive "the text starts with this literal pattern". -/
def startsWithCI : List Char → List Char → Bool
  | [], _ => true
  | _ :: _, [] => false
  | p :: ps, c :: cs => (lowerAscii p == lowerAscii c) && startsWithCI ps cs

/-- Case-insensitive "the literal pattern occurs somewhere in the text"
(`re.search` finds a match iff this holds, for patterns that begin with
the literal). -/
def occursCI (pat : List Char) : List Char → Bool
  | [] => false
  | c :: cs => startsWithCI pat (c :: cs) || occursCI pat cs

/-- Python `str.strip()`: drop whitespace from both ends. -/
def pyStrip (cs : List Char) : List Char :=
  ((cs.dropWhile isPySpace).reverse.dropWhile isPySpace).reverse

/-- Single-quote character, used to build the fallback notice string
exactly as the f-string in `run_game` does. -/
def squote : String := String.mk [Char.ofNat 39]

/-!
## Field extraction — `parse_chess_response` (src/backend/llm_service.py)

Each labelled field is extracted with
`re.search(LABEL + pattern, text, re.IGNORECASE)`.  `re.search` tries
every start position left to right; a position can match only where the
literal label occurs (case-insensitively).  At a matching label the
patterns in the source are `\s*(.+?)TERM` (for `MOVE:`, `COMMENT:`,
`COMMENTARY:`) and `\s*(\S+)` (for the two emotion labels).

For `\s*(.+?)TERM`: `\s*` is greedy, so it first consumes the maximal
whitespace run and on failure backtracks one character at a time; `.`
does not match a newline, and `(.+?)` is lazy, so for a fixed `\s*`
consumption the only candidate capture is the (non-empty) run of
non-newline characters up to the next newline or the end of text, and
the overall attempt at this position succeeds iff the terminator `TERM`
matches right after that run.  `tryWs` below implements the greedy
`\s*` backtracking, `attemptAt` the lazy capture, and the `termOk`
argument the terminator.
-/

/-- One `\s*`-backtracking attempt: the capture candidate of `(.+?)` at
the remainder `R`, accepted iff the terminator matches after it. -/
def attemptAt (termOk : List Char → Bool) (R : List Char) : Option (List Char) :=
  match R with
  | [] => none
  | c :: _ =>
    if c == '\n' then none
    else
      let cap := R.takeWhile (fun d => !(d == '\n'))
      let after := R.dropWhile (fun d => !(d == '\n'))
      if termOk after then some cap else none

/-- Greedy `\s*` with backtracking: try consuming `n` whitespace
characters, `n` descending from the maximal whitespace prefix to 0. -/
def tryWs (termOk : List Char → Bool) (rest : List Char) : Nat → Option (List Char)
  | 0 => attemptAt termOk rest
  | n + 1 =>
    match attemptAt termOk (rest.drop (n + 1)) with
    | some cap => some cap
    | none => tryWs termOk rest n

/-- `\s*(.+?)TERM` applied right after a label occurrence. -/
def fieldCapture (termOk : List Char → Bool) (rest : List Char) : Option (List Char) :=
  tryWs termOk rest ((rest.takeWhile isPySpace).length)

/-- Terminator `(?:\n|$)` of the `MOVE:` pattern: always satisfied at the
end of the captured line (the position after the capture is the end of
text or a newline by construction). -/
def termNl (after : List Char) : Bool :=
  match after with
  | [] => true
  | c :: _ => c == '\n'

/-- Terminator `(?:\n(?:LBL1|LBL2|...):|$)` of the `COMMENT:` and
`COMMENTARY:` patterns.  Without `re.MULTILINE`, `$` matches at the end
of text or just before a final newline. -/
def termLabels (labels : List (List Char)) (after : List Char) : Bool :=
  match after with
  | [] => true
  | c :: rest =>
    c == '\n' && (rest.isEmpty || labels.any (fun l => startsWithCI l rest))

/-- `\s*(\S+)`: skip the maximal whitespace run, then capture the maximal
non-empty run of non-whitespace characters.  (`\S` and `\s` are disjoint,
so backtracking `\s*` can never rescue a failed `\S+`.) -/
def emotionCapture (rest : List Char) : Option (List Char) :=
  match rest.dropWhile isPySpace with
  | [] => none
  | c :: cs => some ((c :: cs).takeWhile (fun d => !(isPySpace d)))

/-- `re.search` over start positions: at each case-insensitive occurrence
of the label, run the per-field matcher on the text after the label; the
first occurrence at which it succeeds wins. -/
def scanField (label : List Char) (tryAt : List Char → Option (List Char)) :
    List Char → Option (List Char)
  | [] => none
  | c :: rest =>
    if startsWithCI label (c :: rest) then
      match tryAt ((c :: rest).drop label.length) with
      | some cap => some cap
      | none => scanField label tryAt rest
    else scanField label tryAt rest

def moveLabel : List Char := ("move:").data

def commentLabel : List Char := ("comment:").data

def commentaryLabel : List Char := ("commentary:").data

def myEmotionLabel : List Char := ("my_emotion:").data

def oppEmotionLabel : List Char := ("opponent_emotion:").data

/-- Labels terminating a `COMMENT:` capture:
`(?:\n(?:COMMENTARY|MY_EMOTION|OPPONENT_EMOTION):|$)`. -/
def commentTerms : List (List Char) := [commentaryLabel, myEmotionLabel, oppEmotionLabel]

/-- Labels terminating a `COMMENTARY:` capture:
`(?:\n(?:MY_EMOTION|OPPONENT_EMOTION):|$)`. -/
def commentaryTerms : List (List Char) := [myEmotionLabel, oppEmotionLabel]

/-- `match.group(1).strip() if match else None`. -/
def stripOpt (o : Option (List Char)) : Option String :=
  o.map (fun l => String.mk (pyStrip l))

/-- `VALID_EMOTIONS` — src/backend/llm_service.py, lines 12–22. -/
def VALID_EMOTIONS : List String :=
  ["grandmaster_trance", "instant_regret", "smug_trap_setter",
   "bewildered_analyst", "stone_wall", "predator", "resigned_king",
   "impatient_speedster", "eureka_moment"]

/-- `if my_emotion and my_emotion not in VALID_EMOTIONS: my_emotion = "stone_wall"`
(an empty string is falsy in Python, hence the first conjunct). -/
def normEmotion : Option String → Option String
  | none => none
  | some s => if s ≠ "" ∧ ¬ (s ∈ VALID_EMOTIONS) then some ("stone_wall") else some s

/-- `ChessMoveResponse` — src/backend/llm_service.py. -/
structure ChessMoveResponse where
  move : Option String
  comment : Option String
  commentary : Option String
  my_emotion : Option String
  opponent_emotion : Option String
deriving DecidableEq, Repr

/-- `parse_chess_response` — src/backend/llm_service.py, lines 43–69.
Patterns (all `re.IGNORECASE`):
`MOVE:\s*(.+?)(?:\n|$)`,
`COMMENT:\s*(.+?)(?:\n(?:COMMENTARY|MY_EMOTION|OPPONENT_EMOTION):|$)`,
`COMMENTARY:\s*(.+?)(?:\n(?:MY_EMOTION|OPPONENT_EMOTION):|$)`,
`MY_EMOTION:\s*(\S+)`, `OPPONENT_EMOTION:\s*(\S+)`;
then the two emotion fields are normalised against `VALID_EMOTIONS`. -/
def parse_chess_response (text : String) : ChessMoveResponse :=
  { move := stripOpt (scanField moveLabel (fieldCapture termNl) text.data)
    comment := stripOpt (scanField commentLabel (fieldCapture (termLabels commentTerms)) text.data)
    commentary := stripOpt (scanField commentaryLabel (fieldCapture (termLabels commentaryTerms)) text.data)
    my_emotion := normEmotion (stripOpt (scanField myEmotionLabel emotionCapture text.data))
    opponent_emotion := normEmotion (stripOpt (scanField oppEmotionLabel emotionCapture text.data)) }

/-!
## Legacy parser — `parse_llm_response` (src/backend/game_engine.py, lines 21–48)

`run_game` does *not* call this function (it calls `parse_chess_response`,
game_engine.py line 210); it is embedded because claim C3 compares the
two.  Its move extraction is
`re.search(r"MOVE:\s*([A-Za-z0-9\-+#=xO]+)", text, re.IGNORECASE)` and,
failing that, the first match of
`re.findall(r"\b([KQRBN]?[a-h]?[1-8]?x?[a-h][1-8](?:=[QRBN])?[+#]?|O-O(?:-O)?)\b", text)`.
(The legacy `COMMENT:` field is not modelled: no claim depends on it and
`run_game` never uses this function.)
-/

/-- Character class `[A-Za-z0-9\-+#=xO]` of the legacy `MOVE:` pattern. -/
def isMoveTokChar (c : Char) : Bool :=
  c.isAlpha || c.isDigit || c == '-' || c == '+' || c == '#' || c == '='

/-- The legacy `MOVE:\s*([A-Za-z0-9\-+#=xO]+)` matcher after a label
occurrence.  The class is disjoint from `\s`, so greedy-`\s*`
backtracking can never rescue an empty `+` match: the attempt at this
occurrence succeeds iff a class character follows the whitespace run. -/
def legacyMoveCapture (rest : List Char) : Option (List Char) :=
  match (rest.dropWhile isPySpace).takeWhile isMoveTokChar with
  | [] => none
  | c :: cs => some (c :: cs)

/-- `\w` word characters (ASCII scope), for `\b` word boundaries. -/
def isWordCh (c : Char) : Bool := c.isAlpha || c.isDigit || c == '_'

def isPieceCh (c : Char) : Bool :=
  c == 'K' || c == 'Q' || c == 'R' || c == 'B' || c == 'N'

def isPromoCh (c : Char) : Bool :=
  c == 'Q' || c == 'R' || c == 'B' || c == 'N'

def isFileCh (c : Char) : Bool := 'a' ≤ c && c ≤ 'h'

def isRankCh (c : Char) : Bool := '1' ≤ c && c ≤ '8'

/-- Matcher state: characters consumed so far in reverse order, and the
remaining text.  Lists of states are kept in regex backtracking
preference order (the first state that satisfies the trailing `\b`
wins). -/
def optCh (p : Char → Bool) (st : List Char × List Char) : List (List Char × List Char) :=
  match st.2 with
  | c :: rest => if p c then [(c :: st.1, rest), st] else [st]
  | [] => [st]

def reqCh (p : Char → Bool) (st : List Char × List Char) : List (List Char × List Char) :=
  match st.2 with
  | c :: rest => if p c then [(c :: st.1, rest)] else []
  | [] => []

/-- Optional two-character group `(?:=[QRBN])?`. -/
def optPromo (st : List Char × List Char) : List (List Char × List Char) :=
  match st.2 with
  | a :: b :: rest => if a == '=' && isPromoCh b then [(b :: a :: st.1, rest), st] else [st]
  | _ => [st]

/-- All candidate matches of branch
`[KQRBN]?[a-h]?[1-8]?x?[a-h][1-8](?:=[QRBN])?[+#]?`
at the given suffix, in backtracking preference order (each greedy
option tries "consumed" before "skipped"; earlier options vary slower,
exactly as the regex engine backtracks). -/
def branchACands (cs : List Char) : List (List Char × List Char) :=
  (((((((([(([] : List Char), cs)].flatMap (optCh isPieceCh)).flatMap
    (optCh isFileCh)).flatMap
    (optCh isRankCh)).flatMap
    (optCh (fun c => c == 'x'))).flatMap
    (reqCh isFileCh)).flatMap
    (reqCh isRankCh)).flatMap
    optPromo).flatMap
    (optCh (fun c => c == '+' || c == '#')))

/-- Candidate matches of branch `O-O(?:-O)?` (greedy: `O-O-O` preferred
over `O-O` when both are present). -/
def branchBCands (cs : List Char) : List (List Char × List Char) :=
  match cs with
  | 'O' :: '-' :: 'O' :: '-' :: 'O' :: rest =>
    [(['O', '-', 'O', '-', 'O'], rest), (['O', '-', 'O'], '-' :: 'O' :: rest)]
  | 'O' :: '-' :: 'O' :: rest => [(['O', '-', 'O'], rest)]
  | _ => []

/-- First candidate whose trailing `\b` holds: the last consumed
character and the next character must differ in word-ness (end of text
counts as non-word). -/
def firstBoundaryOk : List (List Char × List Char) → Option (List Char × List Char)
  | [] => none
  | (con, rest) :: more =>
    match con with
    | [] => firstBoundaryOk more
    | lastc :: _ =>
      let nextWord : Bool := match rest with | [] => false | c :: _ => isWordCh c
      if isWordCh lastc != nextWord then some (con, rest) else firstBoundaryOk more

/-- Try the full pattern `\b([KQRBN]?...|O-O(?:-O)?)\b` at one start
position.  Every possible match starts with a word character, so the
leading `\b` holds iff the previous character (if any) is non-word.
Returns the matched token (forward order), its last character and the
remaining text. -/
def matchMoveAt (prev : Option Char) (cs : List Char) : Option (List Char × Char × List Char) :=
  let prevWord : Bool := match prev with | some p => isWordCh p | none => false
  if prevWord then none
  else
    match firstBoundaryOk (branchACands cs ++ branchBCands cs) with
    | some (con, rest) =>
      match con with
      | lastc :: _ => some (con.reverse, lastc, rest)
      | [] => none
    | none => none

/-- `re.findall` scan: try each start position left to right; after a
match, resume immediately after it.  `fuel` bounds the recursion; every
step consumes at least one character, so `cs.length + 1` fuel is always
sufficient. -/
def findallGo : Nat → Option Char → List Char → List (List Char)
  | 0, _, _ => []
  | _ + 1, _, [] => []
  | fuel + 1, prev, c :: rest =>
    match matchMoveAt prev (c :: rest) with
    | some (tok, lastc, rem) => tok :: findallGo fuel (some lastc) rem
    | none => findallGo fuel (some c) rest

/-- `re.findall(move pattern, text)` followed by `potential_moves[0]`
(`None` when the list is empty). -/
def findMoveShaped (text : String) : Option String :=
  match findallGo (text.data.length + 1) none text.data with
  | [] => none
  | tok :: _ => some (String.mk tok)

/-- Move extraction of the legacy `parse_llm_response`
(src/backend/game_engine.py, lines 21–48): labelled pattern first, then
the secondary whole-text scan for a move-shaped substring. -/
def parse_llm_response_move (text : String) : Option String :=
  match scanField moveLabel legacyMoveCapture text.data with
  | some cap => some (String.mk (pyStrip cap))
  | none => findMoveShaped text

/-!
## Oracle call — `call_claude_cli` (src/backend/llm_service.py, lines 72–130)

The subprocess spawn and the JSON decoder are external effects; they are
passed in as explicit outcomes so that `call_claude_cli` remains the
faithful translation of the function's `try`/`except` structure.  Every
code path of the Python function is inside `try ... except Exception`,
so the function never propagates an exception; accordingly the model is
a total function.  A JSON payload that decodes to a non-dict value makes
`response_data.get` raise and reach the generic handler; that path is
the `raised` outcome.
-/

/-- `LLMResponse` — src/backend/llm_service.py. -/
structure LLMResponse where
  text : String
  session_id : Option String
  error : Option String := none
deriving DecidableEq, Repr

/-- Outcome of `asyncio.create_subprocess_exec` + `communicate`:
the process was not found (`FileNotFoundError`), some other exception
was raised inside the `try` block, or the process completed with a
return code, stdout and stderr. -/
inductive SpawnOutcome where
  | fileNotFound
  | raised (msg : String)
  | completed (returncode : Int) (stdout : String) (stderr : String)

/-- Outcome of `json.loads(stdout)`: a decode error, or a JSON object
whose `result` / `session_id` keys may each be absent. -/
inductive JsonParse where
  | malformed
  | object (result? : Option String) (session? : Option String)

/-- `call_claude_cli` — src/backend/llm_service.py, lines 72–130
(the prompt and command-line construction do not affect the returned
`LLMResponse` and are not modelled). -/
def call_claude_cli (jsonLoads : String → JsonParse) (outcome : SpawnOutcome)
    (session_id : Option String) : LLMResponse :=
  match outcome with
  | .fileNotFound =>
    { text := "", session_id := none,
      error := some ("Claude CLI not found. Please install claude-code.") }
  | .raised msg =>
    { text := "", session_id := session_id,
      error := some (("Error calling Claude CLI: ") ++ msg) }
  | .completed rc stdout stderr =>
    if rc ≠ 0 then
      { text := "", session_id := session_id,
        error := some (if stderr == "" then ("Unknown error") else stderr) }
    else
      match jsonLoads stdout with
      | .malformed => { text := stdout, session_id := session_id, error := none }
      | .object result? sess? =>
        { text := result?.getD "",
          session_id := match sess? with | some s => some s | none => session_id,
          error := none }

/-!
## Session-id update — `run_game` (src/backend/game_engine.py, lines 194–207)

Per turn of one side: the call passes the currently stored session id,
and afterwards `if llm_response.session_id: game.<side>_session_id =
llm_response.session_id` — the stored id is overwritten by every truthy
(non-`None`, non-empty) session id the response carries.
-/

/-- Python truthiness of an optional string. -/
def truthyOpt : Option String → Bool
  | none => false
  | some s => !(s == "")

/-- One turn's update of the stored per-side session id. -/
def sessionStep (stored : Option String) (resp : Option String) : Option String :=
  if truthyOpt resp then resp else stored

/-- Stored session id of a side after a sequence of oracle responses
(each list element is the `session_id` of one response for that side),
starting from a fresh game (`white_session_id`/`black_session_id`
default to NULL, src/backend/models.py lines 30–31). -/
def storedAfter (resps : List (Option String)) : Option String :=
  resps.foldl sessionStep none

/-!
## Move resolution — `validate_and_get_move` (src/backend/game_engine.py, lines 56–79)

`board.parse_san` / `board.parse_uci` belong to the external chess
library; per its contract each either returns a move or raises one of
`InvalidMoveError`, `IllegalMoveError`, `AmbiguousMoveError` (all
direct subclasses of `ValueError`, none a subclass of another).  The
repository function wraps them in

    if not move_str: return None
    try: return board.parse_san(move_str)
    except chess.InvalidMoveError: pass
    except chess.AmbiguousMoveError: pass
    try: return board.parse_uci(move_str)
    except chess.InvalidMoveError: pass
    return None

so an `IllegalMoveError` from either parser (and an
`AmbiguousMoveError` from `parse_uci`) is *not* handled and propagates
to the caller; the model returns it in the `Except` error channel.
The two parsers are passed in as parameters (the board is fixed inside
them), keeping the translation exact for every library behaviour.
-/

/-- The chess library's move-parsing exceptions. -/
inductive SanError where
  | invalidMove
  | illegalMove
  | ambiguousMove
deriving DecidableEq, Repr

/-- The second `try` block (UCI attempt) and the final `return None`. -/
def uciAttempt {M : Type} (parseUci : String → Except SanError M) (s : String) :
    Except SanError (Option M) :=
  match parseUci s with
  | .ok m => .ok (some m)
  | .error .invalidMove => .ok none
  | .error e => .error e

/-- `validate_and_get_move` — src/backend/game_engine.py, lines 56–79.
`.ok none` is the "unresolved" report; `.error e` is an exception
propagating out of the function. -/
def validate_and_get_move {M : Type} (parseSan parseUci : String → Except SanError M)
    (move_str : Option String) : Except SanError (Option M) :=
  match move_str with
  | none => .ok none
  | some s =>
    if s = "" then .ok none
    else
      match parseSan s with
      | .ok m => .ok (some m)
      | .error .invalidMove => uciAttempt parseUci s
      | .error .ambiguousMove => uciAttempt parseUci s
      | .error .illegalMove => .error .illegalMove

/-- Python rendering of the optional move string inside the f-string
(`None` renders as the text `None`). -/
def pyShowOpt : Option String → String
  | none => ("None")
  | some s => s

/-- The bracketed fallback notice
`f"[FALLBACK - LLM suggested invalid move '{move_str}']"`. -/
def fallbackNotice (move_str : Option String) : String :=
  ("[FALLBACK - LLM suggested invalid move ") ++ squote ++ pyShowOpt move_str
    ++ squote ++ ("]")

/-- The resolve-and-fallback step of `run_game`
(src/backend/game_engine.py, lines 217–228): validate the parsed move
string; on an "unresolved" report substitute the random legal move,
set `was_fallback` and prepend the bracketed notice to the comment.
An exception from `validate_and_get_move` is not caught anywhere in
`run_game` and aborts the turn (error channel).  Returns
`(move, was_fallback, comment)`. -/
def resolveStep {M : Type} (parseSan parseUci : String → Except SanError M)
    (randomMove : M) (move_str : Option String) (comment : Option String) :
    Except SanError (M × Bool × Option String) :=
  match validate_and_get_move parseSan parseUci move_str with
  | .error e => .error e
  | .ok (some m) => .ok (m, false, comment)
  | .ok none =>
    .ok (randomMove, true,
      some (match comment with
        | some c => fallbackNotice move_str ++ (" ") ++ c
        | none => fallbackNotice move_str))

/-!
## Move numbering — `run_game` (src/backend/game_engine.py, lines 150–155 and 276–278)

`move_number = existing_moves // 2 + 1` on (re-)invocation; each
executed ply records the current `move_number`; `if not is_white:
move_number += 1` after the ply.  `is_white` comes from `board.turn`,
and every game starts from the standard start position (models.py
default FEN) and is replayed through its recorded plies, so the side to
move at global ply index `g` (0-based, counted from the game's start) is
White iff `g` is even.
-/

/-- `existing_moves // 2 + 1`. -/
def initial_move_number (existing_moves : Nat) : Nat := existing_moves / 2 + 1

/-- The `move_number` values recorded by `k` successive plies of the
loop, starting with counter value `mn` at global ply index `g`. -/
def loopNumbers (mn g : Nat) : Nat → List Nat
  | 0 => []
  | k + 1 => mn :: loopNumbers (if g % 2 = 1 then mn + 1 else mn) (g + 1) k

/-- The `move_number` values recorded by an invocation of `run_game`
that finds `existing` stored move rows and then executes `k` plies. -/
def invocationNumbers (existing k : Nat) : List Nat :=
  loopNumbers (initial_move_number existing) existing k

/-!
## Persisted snapshots — `run_game` (src/backend/game_engine.py)

`run_game` writes the game row to storage (`db.commit()`) at exactly
five sites; the `(status, is_paused)` pair it persists at each:

1. line 148 — after setting `status = IN_PROGRESS`, `is_paused = False`;
2. line 168 — the 10 s first-subscriber wait expired:
   `is_paused = True` (status still `IN_PROGRESS`), loop never entered;
3. line 176 — subscriber count 0 at the top of a turn:
   `is_paused = True` (status still `IN_PROGRESS`), loop exits;
4. line 252 — per-ply commit of the move row plus updated board fields
   (status `IN_PROGRESS`, `is_paused` still `False`);
5. line 286 — terminal position: `status = COMPLETED` (`is_paused`
   still `False`).

The loop runs while the board is not terminal; `pliesToEnd` is the
number of plies until the terminal position, `viewers k` the subscriber
count observed at the top of turn `k`, `subscriberAppears` whether a
subscriber connects within the 10 s window, and `gameFound` whether the
initial load finds the game row (if not, `run_game` returns without
persisting anything).
-/

inductive GameStatus where
  | waiting_for_prompts
  | in_progress
  | completed
deriving DecidableEq, Repr

/-- One persisted `(status, is_paused)` pair of the game row. -/
structure GameSnapshot where
  status : GameStatus
  is_paused : Bool
deriving DecidableEq, Repr

/-- Environment of one `run_game` invocation. -/
structure RunEnv where
  gameFound : Bool
  subscriberAppears : Bool
  viewers : Nat → Nat
  pliesToEnd : Nat

/-- Snapshots persisted by the `while not board.is_game_over()` loop,
from turn index `k` with `remaining` plies to the terminal position. -/
def runLoopSnapshots (viewers : Nat → Nat) : Nat → Nat → List GameSnapshot
  | _, 0 => [⟨.completed, false⟩]
  | k, remaining + 1 =>
    if viewers k = 0 then [⟨.in_progress, true⟩]
    else ⟨.in_progress, false⟩ :: runLoopSnapshots viewers (k + 1) remaining

/-- The ordered list of game-row states persisted by one invocation of
`run_game` — src/backend/game_engine.py, lines 119–292. -/
def run_game_snapshots (env : RunEnv) : List GameSnapshot :=
  if env.gameFound then
    ⟨.in_progress, false⟩ ::
      (if env.subscriberAppears then runLoopSnapshots env.viewers 0 env.pliesToEnd
       else [⟨.in_progress, true⟩])
  else []

/-!
## Event bus — `SSEManager` (src/sse_manager.py)

`self._connections : dict[str, list[asyncio.Queue]]` is modelled as an
association list with unique keys (a Python dict); each queue is
modelled by an identity (`qid`, distinct per live subscriber, standing
for the queue object's identity) and its buffered contents
(`none` = the `None` shutdown sentinel `close_game` puts).

* `subscribe` (lines 15–29): append one fresh empty queue to the code's
  list (the `defaultdict` creates the entry when absent); when the
  subscriber's stream ends — by shutdown sentinel or by consumer
  disconnect — the `finally` block removes exactly that queue
  (`list.remove` with object identity) and deletes the entry when the
  list became empty (`endStream` below).
* `broadcast` (lines 31–44): `if game_code not in self._connections:
  return`, else put the serialized message into every queue of that
  code's list.
* `close_game` (lines 46–52): put the `None` sentinel into every queue.
* `get_subscriber_count` (lines 54–56): length of the code's list
  (0 when the key is absent).
-/

structure SubQueue where
  qid : Nat
  buf : List (Option String)
deriving DecidableEq, Repr

structure SSEState where
  connections : List (String × List SubQueue)
deriving DecidableEq, Repr

/-- Dict lookup (first — unique — entry with the key). -/
def lookupCode (code : String) : List (String × List SubQueue) → Option (List SubQueue)
  | [] => none
  | (c, qs) :: rest => if c = code then some qs else lookupCode code rest

/-- Dict update in place of the (unique) entry with the key. -/
def updateCode (code : String) (f : List SubQueue → List SubQueue) :
    List (String × List SubQueue) → List (String × List SubQueue)
  | [] => []
  | (c, qs) :: rest =>
    if c = code then (c, f qs) :: rest else (c, qs) :: updateCode code f rest

/-- `del self._connections[game_code]`. -/
def deleteCode (code : String) : List (String × List SubQueue) → List (String × List SubQueue)
  | [] => []
  | (c, qs) :: rest => if c = code then rest else (c, qs) :: deleteCode code rest

/-- `self._connections[game_code].append(queue)` with a fresh queue
(the `defaultdict` creates the entry if the key is absent; a new dict
key is appended at the end). -/
def subscribe (code : String) (qid : Nat) (s : SSEState) : SSEState :=
  match lookupCode code s.connections with
  | some _ => ⟨updateCode code (fun qs => qs ++ [⟨qid, []⟩]) s.connections⟩
  | none => ⟨s.connections ++ [(code, [⟨qid, []⟩])]⟩

/-- `list.remove(queue)`: remove the first (only) queue with this
identity. -/
def removeFirstQid (qid : Nat) : List SubQueue → List SubQueue
  | [] => []
  | q :: rest => if q.qid = qid then rest else q :: removeFirstQid qid rest

/-- The `finally` block of `subscribe`'s generator: remove the own
queue, then delete the entry if its list became empty. -/
def endStream (code : String) (qid : Nat) (s : SSEState) : SSEState :=
  let conns := updateCode code (removeFirstQid qid) s.connections
  match lookupCode code conns with
  | some [] => ⟨deleteCode code conns⟩
  | _ => ⟨conns⟩

/-- `broadcast` — src/sse_manager.py, lines 31–44. -/
def broadcast (code : String) (msg : String) (s : SSEState) : SSEState :=
  match lookupCode code s.connections with
  | none => s
  | some _ =>
    ⟨updateCode code (List.map (fun q => ⟨q.qid, q.buf ++ [some msg]⟩)) s.connections⟩

/-- `close_game` — src/sse_manager.py, lines 46–52. -/
def close_game (code : String) (s : SSEState) : SSEState :=
  match lookupCode code s.connections with
  | none => s
  | some _ =>
    ⟨updateCode code (List.map (fun q => ⟨q.qid, q.buf ++ [none]⟩)) s.connections⟩

/-- `get_subscriber_count` — src/sse_manager.py, lines 54–56. -/
def get_subscriber_count (code : String) (s : SSEState) : Nat :=
  ((lookupCode code s.connections).getD []).length

/-- The concurrent operations that mutate the manager's state. -/
inductive SSEOp where
  | sub (code : String) (qid : Nat)
  | endStream (code : String) (qid : Nat)
  | bcast (code : String) (msg : String)
  | closeAll (code : String)
deriving DecidableEq, Repr

def applyOp (s : SSEState) : SSEOp → SSEState
  | .sub code qid => subscribe code qid s
  | .endStream code qid => endStream code qid s
  | .bcast code msg => broadcast code msg s
  | .closeAll code => close_game code s

/-- State after a history of operations, from the empty manager. -/
def runOps (ops : List SSEOp) : SSEState := ops.foldl applyOp ⟨[]⟩

/-- Specification-level bookkeeping of the currently attached
subscriber streams: `sub` attaches one, `endStream` detaches it. -/
def removeFirstPair (p : String × Nat) : List (String × Nat) → List (String × Nat)
  | [] => []
  | x :: rest => if x = p then rest else x :: removeFirstPair p rest

def attachedStep (att : List (String × Nat)) : SSEOp → List (String × Nat)
  | .sub code qid => att ++ [(code, qid)]
  | .endStream code qid => removeFirstPair (code, qid) att
  | _ => att

def attachedAfter (ops : List SSEOp) : List (String × Nat) :=
  ops.foldl attachedStep []

/-- Attached stream identities for one code, in attachment order. -/
def attachedFor (code : String) (att : List (String × Nat)) : List Nat :=
  (att.filter (fun p => p.1 = code)).map Prod.snd

/-- A history is valid when every `sub` uses an identity not currently
attached for that code (queue objects are distinct) and every
`endStream` ends a stream that is attached (the generator's `finally`
runs exactly once per subscriber). -/
def validOp (att : List (String × Nat)) : SSEOp → Bool
  | .sub code qid => !(decide (qid ∈ attachedFor code att))
  | .endStream code qid => decide ((code, qid) ∈ att)
  | _ => true

def validFrom (att : List (String × Nat)) : List SSEOp → Bool
  | [] => true
  | op :: ops => validOp att op && validFrom (attachedStep att op) ops

/-- Queue identities currently stored for a code. -/
def qidsFor (code : String) (s : SSEState) : List Nat :=
  ((lookupCode code s.connections).getD []).map SubQueue.qid

/-!
## Move event — `MoveEvent` (src/schemas.py, lines 53–62)

The pydantic model declares exactly nine fields.  `run_game`
(game_engine.py lines 259–273) constructs it passing four *additional*
keyword arguments — `commentary`, `commentary_audio`, `my_emotion`,
`opponent_emotion` — which the model does not declare; pydantic's
default `extra="ignore"` configuration silently drops unknown keyword
arguments, and `model_dump_json` serializes declared fields only.
-/

inductive Color where
  | white
  | black
deriving DecidableEq, Repr

/-- `MoveEvent` — src/schemas.py, lines 53–62 (its declared fields). -/
structure MoveEvent where
  type : String := ("move")
  move_number : Nat
  color : Color
  move_uci : String
  move_san : String
  comment : Option String
  was_fallback : Bool
  board_fen : String
  board_ascii : String
deriving DecidableEq, Repr

/-- The `MoveEvent(...)` construction at src/backend/game_engine.py,
lines 260–273, with the four undeclared keyword arguments pydantic
ignores (`extra="ignore"` is the default). -/
def mkMoveEventEngine (move_number : Nat) (color : Color) (move_uci move_san : String)
    (comment : Option String) (was_fallback : Bool) (board_fen board_ascii : String)
    (_commentary _commentary_audio _my_emotion _opponent_emotion : Option String) : MoveEvent :=
  { move_number := move_number, color := color, move_uci := move_uci,
    move_san := move_san, comment := comment, was_fallback := was_fallback,
    board_fen := board_fen, board_ascii := board_ascii }

/-- The keys of `MoveEvent.model_dump_json()`: pydantic serializes the
declared fields, in declaration order. -/
def moveEventFields : List String :=
  ["type", "move_number", "color", "move_uci", "move_san", "comment",
   "was_fallback", "board_fen", "board_ascii"]

/-- Removal of the first occurrence, on plain identity lists (used to
relate `removeFirstQid` on queue lists with `removeFirstPair` on the
specification-level attachment list). -/
def removeFirstNat (q : Nat) : List Nat → List Nat
  | [] => []
  | x :: rest => if x = q then rest else x :: removeFirstNat q rest

/-- The coupling invariant between the manager's state and the
specification-level attachment list: dict keys are unique, for every
code the stored queue identities (in order) are exactly the attached
stream identities for that code, and no stored entry is empty (the
`finally` block deletes an entry the moment its list empties). -/
def GoodState (s : SSEState) (att : List (String × Nat)) : Prop :=
  (s.connections.map Prod.fst).Nodup ∧
  ∀ code, qidsFor code s = attachedFor code att ∧
    ∀ qs, lookupCode code s.connections = some qs → qs ≠ []

/-!
# Theorems
-/

theorem dropWhile_head_not {p : Char → Bool} :
    ∀ {l : List Char} {a : Char} {t : List Char}, l.dropWhile p = a :: t → p a = false := by
  intro l
  induction l with
  | nil => intro a t h; simp at h
  | cons b l ih =>
    intro a t h
    rw [List.dropWhile_cons] at h
    by_cases hb : p b
    · rw [if_pos hb] at h; exact ih h
    · rw [if_neg hb] at h
      cases h
      simpa using hb

theorem dropWhile_all_not {p : Char → Bool} {l : List Char}
    (h : ∀ c ∈ l, p c = false) : l.dropWhile p = l := by
  cases l with
  | nil => rfl
  | cons a t =>
    rw [List.dropWhile_cons, if_neg]
    simp [h a (List.mem_cons_self a t)]

theorem pyStrip_eq_self {cs : List Char}
    (h : ∀ c ∈ cs, isPySpace c = false) : pyStrip cs = cs := by
  unfold pyStrip
  rw [dropWhile_all_not h]
  rw [dropWhile_all_not (fun c hc => h c (List.mem_reverse.mp hc))]
  exact List.reverse_reverse cs

theorem emotionCapture_some {rest cap : List Char}
    (h : emotionCapture rest = some cap) :
    cap ≠ [] ∧ ∀ c ∈ cap, isPySpace c = false := by
  unfold emotionCapture at h
  cases hd : rest.dropWhile isPySpace with
  | nil => rw [hd] at h; simp at h
  | cons a t =>
    rw [hd] at h
    have ha : isPySpace a = false := dropWhile_head_not hd
    have hcap : cap = (a :: t).takeWhile (fun d => !(isPySpace d)) := by
      injection h with h'
      exact h'.symm
    constructor
    · rw [hcap, List.takeWhile_cons, ha]
      simp
    · intro c hc
      rw [hcap] at hc
      have := List.mem_takeWhile_imp hc
      simpa using this

theorem scanField_emotion_props {label : List Char} :
    ∀ {cs cap : List Char}, scanField label emotionCapture cs = some cap →
      cap ≠ [] ∧ ∀ c ∈ cap, isPySpace c = false := by
  intro cs
  induction cs with
  | nil => intro cap h; simp [scanField] at h
  | cons c rest ih =>
    intro cap h
    unfold scanField at h
    by_cases hs : startsWithCI label (c :: rest) = true
    · rw [if_pos hs] at h
      cases he : emotionCapture ((c :: rest).drop label.length) with
      | some cap' =>
        rw [he] at h
        injection h with h'
        subst h'
        exact emotionCapture_some he
      | none => rw [he] at h; exact ih h
    · rw [if_neg hs] at h; exact ih h

theorem scanField_eq_none_of_no_occurrence {label : List Char}
    {tryAt : List Char → Option (List Char)} :
    ∀ {cs : List Char}, occursCI label cs = false → scanField label tryAt cs = none := by
  intro cs
  induction cs with
  | nil => intro _; rfl
  | cons c rest ih =>
    intro h
    unfold occursCI at h
    rw [Bool.or_eq_false_iff] at h
    unfold scanField
    rw [if_neg (by simp [h.1])]
    exact ih h.2

theorem normEmotion_valid {o : Option String} (h : ∀ s, o = some s → s ≠ "") :
    normEmotion o = none ∨ ∃ s, normEmotion o = some s ∧ s ∈ VALID_EMOTIONS := by
  cases o with
  | none => left; rfl
  | some s =>
    right
    have hne : s ≠ "" := h s rfl
    by_cases hv : s ∈ VALID_EMOTIONS
    · refine ⟨s, ?_, hv⟩
      show (if s ≠ "" ∧ ¬ (s ∈ VALID_EMOTIONS) then some ("stone_wall") else some s) = some s
      rw [if_neg]
      intro hc
      exact hc.2 hv
    · refine ⟨("stone_wall"), ?_, by decide⟩
      show (if s ≠ "" ∧ ¬ (s ∈ VALID_EMOTIONS) then some ("stone_wall") else some s) =
        some ("stone_wall")
      rw [if_pos ⟨hne, hv⟩]

theorem stripOpt_emotion_ne_empty {cs : List Char} {s : String}
    (h : stripOpt (scanField myEmotionLabel emotionCapture cs) = some s ∨
         stripOpt (scanField oppEmotionLabel emotionCapture cs) = some s) :
    s ≠ "" := by
  have main : ∀ (label : List Char),
      stripOpt (scanField label emotionCapture cs) = some s → s ≠ "" := by
    intro label hs
    unfold stripOpt at hs
    cases hscan : scanField label emotionCapture cs with
    | none => rw [hscan] at hs; simp at hs
    | some cap =>
      rw [hscan] at hs
      obtain ⟨hne, hnsp⟩ := scanField_emotion_props hscan
      have hstrip : pyStrip cap = cap := pyStrip_eq_self hnsp
      simp only [Option.map_some'] at hs
      injection hs with hs'
      intro hempty
      apply hne
      have : (String.mk (pyStrip cap)).data = ("" : String).data := by rw [hs', hempty]
      rw [hstrip] at this
      simpa using this
  cases h with
  | inl h => exact main _ h
  | inr h => exact main _ h

/-- Claim C6: every emotion field extracted by `parse_chess_response` is
checked against the fixed nine-tag set `VALID_EMOTIONS` and an
out-of-set value is replaced by the default tag `stone_wall`, so both
output emotion fields are always either `none` or members of the
nine-tag set; the set has exactly nine tags, and in particular the
input `MY_EMOTION: overjoyed` yields self-emotion `stone_wall`. -/
theorem emotions_always_valid_or_none :
    VALID_EMOTIONS.length = 9 ∧
    (∀ text : String,
      ((parse_chess_response text).my_emotion = none ∨
        ∃ s, (parse_chess_response text).my_emotion = some s ∧ s ∈ VALID_EMOTIONS) ∧
      ((parse_chess_response text).opponent_emotion = none ∨
        ∃ s, (parse_chess_response text).opponent_emotion = some s ∧ s ∈ VALID_EMOTIONS)) ∧
    (parse_chess_response ("MY_EMOTION: overjoyed")).my_emotion = some ("stone_wall") := by
  refine ⟨by decide, ?_, by decide⟩
  intro text
  constructor
  · have h : (parse_chess_response text).my_emotion =
        normEmotion (stripOpt (scanField myEmotionLabel emotionCapture text.data)) := rfl
    rw [h]
    exact normEmotion_valid (fun s hs => stripOpt_emotion_ne_empty (Or.inl hs))
  · have h : (parse_chess_response text).opponent_emotion =
        normEmotion (stripOpt (scanField oppEmotionLabel emotionCapture text.data)) := rfl
    rw [h]
    exact normEmotion_valid (fun s hs => stripOpt_emotion_ne_empty (Or.inr hs))

/-- Claim C3, counterexample: on an input with no `MOVE:` label but a
move-shaped substring (`e4`), the parser the match loop actually calls
(`parse_chess_response`) returns a null move token — there is no
secondary pass — even though the whole-text move-shape scan would find
`e4`, and the legacy `parse_llm_response` (which `run_game` does not
call) does return it. -/
theorem parse_chess_response_no_secondary_pass_cex :
    occursCI moveLabel (("play e4 now").data) = false ∧
    (parse_chess_response ("play e4 now")).move = none ∧
    findMoveShaped ("play e4 now") = some ("e4") ∧
    parse_llm_response_move ("play e4 now") = some ("e4") := by
  decide

/-- Claim C3, amended: for every input text in which no `MOVE:` label
occurs (case-insensitively), `parse_chess_response` — the parser
`run_game` calls — returns a null move token directly, performing no
secondary scan of the text; the secondary move-shape pass exists only
in the legacy `parse_llm_response`, which the match loop does not
invoke. -/
theorem parse_chess_response_move_none_of_no_label :
    ∀ text : String, occursCI moveLabel text.data = false →
      (parse_chess_response text).move = none := by
  intro text h
  have hm : (parse_chess_response text).move =
      stripOpt (scanField moveLabel (fieldCapture termNl) text.data) := rfl
  rw [hm, scanField_eq_none_of_no_occurrence h]
  rfl

theorem parse_chess_response_move_none_of_no_label_witness :
    occursCI moveLabel (("hello").data) = false ∧
    (parse_chess_response ("hello")).move = none :=
  ⟨by decide, parse_chess_response_move_none_of_no_label _ (by decide)⟩

/-- Claim C1: a move token that is well-formed algebraic notation but
illegal in the position makes the chess library's `parse_san` raise
`IllegalMoveError`, which `validate_and_get_move` does **not** catch
(it handles only `InvalidMoveError` and `AmbiguousMoveError`); the
exception propagates through the resolve step of `run_game` instead of
an "unresolved" report, so no fallback move is substituted and the loop
is aborted by the exception. -/
theorem resolve_illegal_san_raises :
    ∀ {M : Type} (parseSan parseUci : String → Except SanError M) (rnd : M)
      (s : String) (comment : Option String),
      s ≠ "" → parseSan s = Except.error SanError.illegalMove →
      resolveStep parseSan parseUci rnd (some s) comment =
        Except.error SanError.illegalMove := by
  intro M pS pU rnd s cm hs herr
  simp [resolveStep, validate_and_get_move, hs, herr]

theorem resolve_illegal_san_raises_witness :
    (("Nf6" : String) ≠ "") ∧
    resolveStep (fun _ => (Except.error SanError.illegalMove : Except SanError Nat))
        (fun _ => Except.error SanError.invalidMove) 0 (some ("Nf6")) none =
      Except.error SanError.illegalMove :=
  ⟨by decide, resolve_illegal_san_raises _ _ 0 _ none (by decide) rfl⟩

/-- Claim C4, counterexample: when the oracle process exits 0 but its
stdout is not valid JSON (a malformed encapsulating payload), the call
returns the **raw stdout** as the response text — not an empty text as
the claim states. -/
theorem call_claude_cli_malformed_raw_cex :
    call_claude_cli (fun _ => JsonParse.malformed)
        (SpawnOutcome.completed 0 ("oops") ("")) none =
      { text := ("oops"), session_id := none, error := none } ∧
    ¬ ((("oops") : String) = "") := by
  decide

/-- Claim C4, amended: `call_claude_cli` catches every failure mode and
always returns an `LLMResponse` (its whole body sits inside
`try ... except Exception`, modelled here as a total function): on
process-not-found and on a non-zero exit status the response text is
empty, while on a malformed encapsulating JSON payload the raw stdout
is used as the response text; in every case the turn proceeds into the
parse/resolve path rather than crashing the loop. -/
theorem call_claude_cli_failure_modes :
    ∀ (jsonLoads : String → JsonParse) (sid : Option String) (rc : Int)
      (out err msg : String),
      (call_claude_cli jsonLoads SpawnOutcome.fileNotFound sid).text = "" ∧
      (call_claude_cli jsonLoads (SpawnOutcome.raised msg) sid).text = "" ∧
      (rc ≠ 0 → (call_claude_cli jsonLoads (SpawnOutcome.completed rc out err) sid).text = "") ∧
      (jsonLoads out = JsonParse.malformed →
        (call_claude_cli jsonLoads (SpawnOutcome.completed 0 out err) sid).text = out) := by
  intro jl sid rc out err msg
  refine ⟨rfl, rfl, ?_, ?_⟩
  · intro h
    simp [call_claude_cli, h]
  · intro h
    simp [call_claude_cli, h]

theorem call_claude_cli_failure_modes_witness :
    ((1 : Int) ≠ 0) ∧
    (call_claude_cli (fun _ => JsonParse.malformed)
        (SpawnOutcome.completed 1 ("x") ("boom")) none).text = "" ∧
    ((fun (_ : String) => JsonParse.malformed) ("y") = JsonParse.malformed) ∧
    (call_claude_cli (fun _ => JsonParse.malformed)
        (SpawnOutcome.completed 0 ("y") ("boom")) none).text = ("y") := by
  refine ⟨by decide, ?_, rfl, ?_⟩
  · exact (call_claude_cli_failure_modes _ none 1 ("x") ("boom") ("m")).2.2.1 (by decide)
  · exact (call_claude_cli_failure_modes _ none 0 ("y") ("boom") ("m")).2.2.2 rfl

/-- Claim C5, counterexample: the stored per-side session id is **not**
write-once.  After a first response carrying session id `s1` the stored
token is `s1`; a later response of the same side carrying `s2`
overwrites it (game_engine.py lines 202–207 assign on every truthy
response), so the token changed after it was first set. -/
theorem session_id_overwritten_cex :
    storedAfter [some ("s1")] = some ("s1") ∧
    storedAfter [some ("s1"), some ("s2")] = some ("s2") ∧
    ¬ (storedAfter [some ("s1"), some ("s2")] = storedAfter [some ("s1")]) := by
  decide

theorem foldl_sessionStep_eq (init : Option String) :
    ∀ resps : List (Option String),
      resps.foldl sessionStep init = (resps.filter truthyOpt).getLastD init := by
  intro resps
  induction resps generalizing init with
  | nil => rfl
  | cons r rest ih =>
    rw [List.foldl_cons, List.filter_cons]
    by_cases hr : truthyOpt r = true
    · rw [if_pos hr, List.getLastD_cons]
      have hstep : sessionStep init r = r := by unfold sessionStep; rw [if_pos hr]
      rw [hstep] at *
      exact ih r
    · rw [if_neg hr]
      have hstep : sessionStep init r = init := by
        unfold sessionStep
        rw [if_neg hr]
      rw [hstep]
      exact ih init

/-- Claim C5, amended: the stored conversation-continuation token of a
side always equals the most recent truthy session id among the side's
oracle responses so far (`none` while no response carried one): the
first response carrying a session id sets it, but every later response
carrying a (possibly different) session id overwrites it, and each
oracle call passes whatever token is stored at call time. -/
theorem session_id_tracks_last_truthy :
    ∀ resps : List (Option String),
      storedAfter resps = (resps.filter truthyOpt).getLastD none := by
  intro resps
  exact foldl_sessionStep_eq none resps

theorem loopNumbers_closed :
    ∀ (k g : Nat), loopNumbers (g / 2 + 1) g k =
      (List.range k).map (fun i => (g + i) / 2 + 1) := by
  intro k
  induction k with
  | zero => intro g; rfl
  | succ k ih =>
    intro g
    have hnext : (if g % 2 = 1 then g / 2 + 1 + 1 else g / 2 + 1) = (g + 1) / 2 + 1 := by
      by_cases hg : g % 2 = 1
      · rw [if_pos hg]; omega
      · rw [if_neg hg]; omega
    rw [List.range_succ_eq_map, List.map_cons, List.map_map]
    show (g / 2 + 1) :: loopNumbers (if g % 2 = 1 then g / 2 + 1 + 1 else g / 2 + 1) (g + 1) k = _
    rw [hnext, ih (g + 1)]
    refine congrArg₂ _ (by omega) ?_
    refine List.map_congr_left ?_
    intro i _
    show (g + 1 + i) / 2 + 1 = (g + (i + 1)) / 2 + 1
    omega

theorem loopNumbers_getD :
    ∀ (k g i : Nat), i < k →
      (loopNumbers (g / 2 + 1) g k).getD i 0 = (g + i) / 2 + 1 := by
  intro k
  induction k with
  | zero => intro g i h; omega
  | succ k ih =>
    intro g i h
    show ((g / 2 + 1) :: loopNumbers (if g % 2 = 1 then g / 2 + 1 + 1 else g / 2 + 1) (g + 1) k).getD i 0 = _
    have hnext : (if g % 2 = 1 then g / 2 + 1 + 1 else g / 2 + 1) = (g + 1) / 2 + 1 := by
      by_cases hg : g % 2 = 1
      · rw [if_pos hg]; omega
      · rw [if_neg hg]; omega
    rw [hnext]
    cases i with
    | zero => simp
    | succ i =>
      rw [List.getD_cons_succ]
      rw [ih (g + 1) i (by omega)]
      omega

/-- Claim C7: move records are numbered from
`move_number = existing_moves // 2 + 1` and the counter is incremented
only after a ply of the second side (Black, odd global ply index), so
an invocation that finds `existing` stored plies assigns the `i`-th ply
it executes the number `(existing + i) / 2 + 1`.  Consequently the
numbering starts at 1, the two plies of one full turn (global indices
`2m` and `2m + 1`) share the number `m + 1`, and recomputing the
counter from the stored move count on re-invocation assigns exactly the
numbers the uninterrupted run would have assigned. -/
theorem move_numbering :
    (∀ existing k, invocationNumbers existing k =
        (List.range k).map (fun i => (existing + i) / 2 + 1)) ∧
    (∀ existing k i, i < k →
        (invocationNumbers existing k).getD i 0 = (existing + i) / 2 + 1) ∧
    (∀ k m, 2 * m + 1 < k →
        (invocationNumbers 0 k).getD (2 * m) 0 = m + 1 ∧
        (invocationNumbers 0 k).getD (2 * m + 1) 0 = m + 1) ∧
    (∀ existing k i, i < k →
        (invocationNumbers existing k).getD i 0 =
          (invocationNumbers 0 (existing + k)).getD (existing + i) 0) := by
  have hget : ∀ existing k i, i < k →
      (invocationNumbers existing k).getD i 0 = (existing + i) / 2 + 1 := by
    intro existing k i h
    exact loopNumbers_getD k existing i h
  refine ⟨?_, hget, ?_, ?_⟩
  · intro existing k
    exact loopNumbers_closed k existing
  · intro k m h
    constructor
    · rw [hget 0 k (2 * m) (by omega)]; omega
    · rw [hget 0 k (2 * m + 1) (by omega)]; omega
  · intro existing k i h
    rw [hget existing k i h, hget 0 (existing + k) (existing + i) (by omega)]
    omega

theorem move_numbering_witness :
    (2 < 3) ∧ (invocationNumbers 5 3).getD 2 0 = (5 + 2) / 2 + 1 ∧
    (3 < 8) ∧ (invocationNumbers 0 8).getD (2 * 1) 0 = 1 + 1 :=
  ⟨by decide, move_numbering.2.1 5 3 2 (by decide), by decide,
    (move_numbering.2.2.1 8 1 (by decide)).1⟩

theorem runLoopSnapshots_paused {viewers : Nat → Nat} :
    ∀ (remaining k : Nat) (snap : GameSnapshot),
      snap ∈ runLoopSnapshots viewers k remaining → snap.is_paused = true →
      snap.status = GameStatus.in_progress := by
  intro remaining
  induction remaining with
  | zero =>
    intro k snap hmem hp
    simp [runLoopSnapshots] at hmem
    rw [hmem] at hp
    simp at hp
  | succ remaining ih =>
    intro k snap hmem hp
    unfold runLoopSnapshots at hmem
    by_cases hv : viewers k = 0
    · rw [if_pos hv] at hmem
      simp at hmem
      rw [hmem]
    · rw [if_neg hv] at hmem
      cases hmem with
      | head => simp at hp
      | tail _ hmem => exact ih (k + 1) snap hmem hp

/-- Claim C8: in every game-row state `run_game` persists — the initial
start commit, the first-subscriber-timeout pause, the zero-viewer
pause, the per-ply commit and the completion commit — the paused flag
is true only while the status is `in_progress`; no snapshot with
status `waiting_for_prompts` or `completed` ever carries
`is_paused = true`. -/
theorem paused_only_while_running :
    ∀ (env : RunEnv) (snap : GameSnapshot),
      snap ∈ run_game_snapshots env → snap.is_paused = true →
      snap.status = GameStatus.in_progress := by
  intro env snap hmem hp
  unfold run_game_snapshots at hmem
  by_cases hf : env.gameFound
  · rw [if_pos hf] at hmem
    cases hmem with
    | head => simp at hp
    | tail _ hmem =>
      by_cases hsub : env.subscriberAppears
      · rw [if_pos hsub] at hmem
        exact runLoopSnapshots_paused env.pliesToEnd 0 snap hmem hp
      · rw [if_neg hsub] at hmem
        cases hmem with
        | head => rfl
        | tail _ h => cases h
  · rw [if_neg hf] at hmem
    simp at hmem

theorem paused_only_while_running_witness :
    ((⟨GameStatus.in_progress, true⟩ : GameSnapshot) ∈
        run_game_snapshots ⟨true, false, fun _ => 0, 0⟩) ∧
    (⟨GameStatus.in_progress, true⟩ : GameSnapshot).status = GameStatus.in_progress := by
  have hmem : (⟨GameStatus.in_progress, true⟩ : GameSnapshot) ∈
      run_game_snapshots ⟨true, false, fun _ => 0, 0⟩ := by decide
  exact ⟨hmem, paused_only_while_running _ _ hmem rfl⟩

theorem updateCode_eq_self {code : String} {f : List SubQueue → List SubQueue} :
    ∀ {l : List (String × List SubQueue)} {qs : List SubQueue},
      lookupCode code l = some qs → f qs = qs → updateCode code f l = l := by
  intro l
  induction l with
  | nil => intro qs h _; simp [lookupCode] at h
  | cons e rest ih =>
    intro qs h hf
    obtain ⟨c, v⟩ := e
    unfold lookupCode at h
    unfold updateCode
    by_cases hc : c = code
    · rw [if_pos hc] at h ⊢
      injection h with h'
      rw [h', hf]
    · rw [if_neg hc] at h ⊢
      rw [ih h hf]

/-- Claim C9: broadcasting to a match code with zero attached
subscribers leaves the manager's state completely unchanged (it is a
total no-op: nothing is buffered anywhere, no queue receives the
message, and — since the state is as if the broadcast never happened —
a subscriber attaching later starts from a fresh empty queue and never
receives the event). -/
theorem broadcast_zero_subscribers_noop :
    ∀ (s : SSEState) (code msg : String),
      get_subscriber_count code s = 0 → broadcast code msg s = s := by
  intro s code msg h
  unfold broadcast
  cases hl : lookupCode code s.connections with
  | none => rfl
  | some qs =>
    unfold get_subscriber_count at h
    rw [hl] at h
    simp only [Option.getD_some] at h
    have hqs : qs = [] := List.length_eq_zero.mp h
    subst hqs
    rw [updateCode_eq_self hl rfl]

theorem broadcast_zero_subscribers_noop_witness :
    get_subscriber_count ("g") ⟨[]⟩ = 0 ∧
    broadcast ("g") ("ev") ⟨[]⟩ = (⟨[]⟩ : SSEState) :=
  ⟨rfl, broadcast_zero_subscribers_noop _ _ _ rfl⟩

theorem lookupCode_updateCode_self {code : String} {f : List SubQueue → List SubQueue} :
    ∀ l : List (String × List SubQueue),
      lookupCode code (updateCode code f l) = (lookupCode code l).map f := by
  intro l
  induction l with
  | nil => rfl
  | cons e rest ih =>
    obtain ⟨c, v⟩ := e
    unfold updateCode
    by_cases hc : c = code
    · rw [if_pos hc]
      unfold lookupCode
      rw [if_pos hc, if_pos hc]
      rfl
    · rw [if_neg hc]
      unfold lookupCode
      rw [if_neg hc, if_neg hc]
      exact ih

theorem lookupCode_updateCode_ne {code code' : String} {f : List SubQueue → List SubQueue}
    (hne : code' ≠ code) :
    ∀ l : List (String × List SubQueue),
      lookupCode code' (updateCode code f l) = lookupCode code' l := by
  intro l
  induction l with
  | nil => rfl
  | cons e rest ih =>
    obtain ⟨c, v⟩ := e
    unfold updateCode
    by_cases hc : c = code
    · rw [if_pos hc]
      unfold lookupCode
      rw [if_neg (by rw [hc]; exact fun h => hne h.symm),
        if_neg (by rw [hc]; exact fun h => hne h.symm)]
    · rw [if_neg hc]
      unfold lookupCode
      by_cases hc' : c = code'
      · rw [if_pos hc', if_pos hc']
      · rw [if_neg hc', if_neg hc']
        exact ih

theorem keys_updateCode {code : String} {f : List SubQueue → List SubQueue} :
    ∀ l : List (String × List SubQueue),
      (updateCode code f l).map Prod.fst = l.map Prod.fst := by
  intro l
  induction l with
  | nil => rfl
  | cons e rest ih =>
    obtain ⟨c, v⟩ := e
    unfold updateCode
    by_cases hc : c = code
    · rw [if_pos hc]; rfl
    · rw [if_neg hc]
      show c :: (updateCode code f rest).map Prod.fst = c :: rest.map Prod.fst
      rw [ih]

theorem lookupCode_append_none {code : String} :
    ∀ {l : List (String × List SubQueue)} (m : List (String × List SubQueue)),
      lookupCode code l = none → lookupCode code (l ++ m) = lookupCode code m := by
  intro l
  induction l with
  | nil => intro m _; rfl
  | cons e rest ih =>
    intro m h
    obtain ⟨c, v⟩ := e
    rw [List.cons_append]
    unfold lookupCode at h
    show (if c = code then some v else lookupCode code (rest ++ m)) = lookupCode code m
    by_cases hc : c = code
    · rw [if_pos hc] at h; simp at h
    · rw [if_neg hc] at h ⊢
      exact ih m h

theorem lookupCode_append_some {code : String} {qs : List SubQueue} :
    ∀ {l : List (String × List SubQueue)} (m : List (String × List SubQueue)),
      lookupCode code l = some qs → lookupCode code (l ++ m) = some qs := by
  intro l
  induction l with
  | nil => intro m h; simp [lookupCode] at h
  | cons e rest ih =>
    intro m h
    obtain ⟨c, v⟩ := e
    rw [List.cons_append]
    unfold lookupCode at h
    show (if c = code then some v else lookupCode code (rest ++ m)) = some qs
    by_cases hc : c = code
    · rw [if_pos hc] at h ⊢; exact h
    · rw [if_neg hc] at h ⊢
      exact ih m h

theorem lookupCode_eq_none_of_not_mem {code : String} :
    ∀ {l : List (String × List SubQueue)}, code ∉ l.map Prod.fst →
      lookupCode code l = none := by
  intro l
  induction l with
  | nil => intro _; rfl
  | cons e rest ih =>
    intro h
    obtain ⟨c, v⟩ := e
    unfold lookupCode
    rw [List.map_cons] at h
    by_cases hc : c = code
    · exact absurd (by rw [hc]; exact List.mem_cons_self _ _) h
    · rw [if_neg hc]
      exact ih (fun hm => h (List.mem_cons_of_mem _ hm))

theorem not_mem_of_lookupCode_eq_none {code : String} :
    ∀ {l : List (String × List SubQueue)}, lookupCode code l = none →
      code ∉ l.map Prod.fst := by
  intro l
  induction l with
  | nil => intro _; simp
  | cons e rest ih =>
    intro h
    obtain ⟨c, v⟩ := e
    unfold lookupCode at h
    by_cases hc : c = code
    · rw [if_pos hc] at h; simp at h
    · rw [if_neg hc] at h
      rw [List.map_cons]
      intro hm
      cases hm with
      | head => exact hc rfl
      | tail _ hm => exact ih h hm

theorem deleteCode_sublist (code : String) :
    ∀ l : List (String × List SubQueue), (deleteCode code l).Sublist l := by
  intro l
  induction l with
  | nil => exact List.Sublist.refl _
  | cons e rest ih =>
    obtain ⟨c, v⟩ := e
    unfold deleteCode
    by_cases hc : c = code
    · rw [if_pos hc]
      exact List.sublist_cons_self _ _
    · rw [if_neg hc]
      exact List.Sublist.cons₂ _ ih

theorem lookupCode_deleteCode_self {code : String} :
    ∀ {l : List (String × List SubQueue)}, (l.map Prod.fst).Nodup →
      lookupCode code (deleteCode code l) = none := by
  intro l
  induction l with
  | nil => intro _; rfl
  | cons e rest ih =>
    intro hnd
    obtain ⟨c, v⟩ := e
    rw [List.map_cons, List.nodup_cons] at hnd
    unfold deleteCode
    by_cases hc : c = code
    · rw [if_pos hc]
      apply lookupCode_eq_none_of_not_mem
      rw [← hc]
      exact hnd.1
    · rw [if_neg hc]
      unfold lookupCode
      rw [if_neg hc]
      exact ih hnd.2

theorem lookupCode_deleteCode_ne {code code' : String} (hne : code' ≠ code) :
    ∀ l : List (String × List SubQueue),
      lookupCode code' (deleteCode code l) = lookupCode code' l := by
  intro l
  induction l with
  | nil => rfl
  | cons e rest ih =>
    obtain ⟨c, v⟩ := e
    unfold deleteCode
    by_cases hc : c = code
    · rw [if_pos hc]
      show lookupCode code' rest = (if c = code' then some v else lookupCode code' rest)
      rw [if_neg (show ¬ c = code' from fun h => hne (by rw [← h]; exact hc))]
    · rw [if_neg hc]
      show (if c = code' then some v else lookupCode code' (deleteCode code rest)) =
        (if c = code' then some v else lookupCode code' rest)
      by_cases hc' : c = code'
      · rw [if_pos hc', if_pos hc']
      · rw [if_neg hc', if_neg hc']
        exact ih

theorem attachedFor_append_self (code : String) (q : Nat) :
    ∀ att : List (String × Nat),
      attachedFor code (att ++ [(code, q)]) = attachedFor code att ++ [q] := by
  intro att
  unfold attachedFor
  rw [List.filter_append]
  simp

theorem attachedFor_append_ne {code code' : String} (q : Nat) (hne : code' ≠ code) :
    ∀ att : List (String × Nat),
      attachedFor code' (att ++ [(code, q)]) = attachedFor code' att := by
  intro att
  unfold attachedFor
  rw [List.filter_append]
  have : List.filter (fun p => decide (p.1 = code')) [(code, q)] = [] := by
    simp [hne.symm]
  rw [this, List.append_nil]

theorem attachedFor_removeFirstPair_self (code : String) (q : Nat) :
    ∀ att : List (String × Nat),
      attachedFor code (removeFirstPair (code, q) att) =
        removeFirstNat q (attachedFor code att) := by
  intro att
  induction att with
  | nil => rfl
  | cons x rest ih =>
    obtain ⟨c, v⟩ := x
    unfold removeFirstPair
    by_cases hx : ((c, v) : String × Nat) = (code, q)
    · rw [if_pos hx]
      have hc : c = code := congrArg Prod.fst hx
      have hv : v = q := congrArg Prod.snd hx
      subst hc
      subst hv
      have hhead : attachedFor c ((c, v) :: rest) = v :: attachedFor c rest := by
        simp [attachedFor, List.filter_cons]
      rw [hhead]
      unfold removeFirstNat
      rw [if_pos rfl]
    · rw [if_neg hx]
      by_cases hc : c = code
      · have hv : v ≠ q := fun hv => hx (by rw [hc, hv])
        subst hc
        have hh1 : attachedFor c ((c, v) :: removeFirstPair (c, q) rest) =
            v :: attachedFor c (removeFirstPair (c, q) rest) := by
          simp [attachedFor, List.filter_cons]
        have hh2 : attachedFor c ((c, v) :: rest) = v :: attachedFor c rest := by
          simp [attachedFor, List.filter_cons]
        rw [hh1, hh2]
        unfold removeFirstNat
        rw [if_neg hv, ih]
      · have hh1 : attachedFor code ((c, v) :: removeFirstPair (code, q) rest) =
            attachedFor code (removeFirstPair (code, q) rest) := by
          simp [attachedFor, List.filter_cons, hc]
        have hh2 : attachedFor code ((c, v) :: rest) = attachedFor code rest := by
          simp [attachedFor, List.filter_cons, hc]
        rw [hh1, hh2, ih]

theorem attachedFor_removeFirstPair_ne {code code' : String} (q : Nat) (hne : code' ≠ code) :
    ∀ att : List (String × Nat),
      attachedFor code' (removeFirstPair (code, q) att) = attachedFor code' att := by
  intro att
  induction att with
  | nil => rfl
  | cons x rest ih =>
    obtain ⟨c, v⟩ := x
    unfold removeFirstPair
    by_cases hx : ((c, v) : String × Nat) = (code, q)
    · rw [if_pos hx]
      have hc : c = code := congrArg Prod.fst hx
      have hcc : ¬ (c = code') := by rw [hc]; exact fun h => hne h.symm
      simp [attachedFor, List.filter_cons, hcc]
    · rw [if_neg hx]
      by_cases hc : c = code'
      · have hh1 : attachedFor code' ((c, v) :: removeFirstPair (code, q) rest) =
            v :: attachedFor code' (removeFirstPair (code, q) rest) := by
          simp [attachedFor, List.filter_cons, hc]
        have hh2 : attachedFor code' ((c, v) :: rest) = v :: attachedFor code' rest := by
          simp [attachedFor, List.filter_cons, hc]
        rw [hh1, hh2, ih]
      · have hh1 : attachedFor code' ((c, v) :: removeFirstPair (code, q) rest) =
            attachedFor code' (removeFirstPair (code, q) rest) := by
          simp [attachedFor, List.filter_cons, hc]
        have hh2 : attachedFor code' ((c, v) :: rest) = attachedFor code' rest := by
          simp [attachedFor, List.filter_cons, hc]
        rw [hh1, hh2, ih]

theorem mem_attachedFor {code : String} {q : Nat} :
    ∀ {att : List (String × Nat)}, (code, q) ∈ att → q ∈ attachedFor code att := by
  intro att
  induction att with
  | nil => intro h; cases h
  | cons x rest ih =>
    intro h
    cases h with
    | head =>
      simp [attachedFor, List.filter_cons]
    | tail _ h =>
      by_cases hc : x.1 = code
      · have hh : attachedFor code (x :: rest) = x.2 :: attachedFor code rest := by
          simp [attachedFor, List.filter_cons, hc]
        rw [hh]
        exact List.mem_cons_of_mem _ (ih h)
      · have hh : attachedFor code (x :: rest) = attachedFor code rest := by
          simp [attachedFor, List.filter_cons, hc]
        rw [hh]
        exact ih h

theorem removeFirstQid_map (q : Nat) :
    ∀ qs : List SubQueue,
      (removeFirstQid q qs).map SubQueue.qid = removeFirstNat q (qs.map SubQueue.qid) := by
  intro qs
  induction qs with
  | nil => rfl
  | cons x rest ih =>
    unfold removeFirstQid
    rw [List.map_cons]
    unfold removeFirstNat
    by_cases hx : x.qid = q
    · rw [if_pos hx, if_pos hx]
    · rw [if_neg hx, if_neg hx, List.map_cons, ih]


theorem qidsFor_some {code : String} {s : SSEState} {qs : List SubQueue}
    (hl : lookupCode code s.connections = some qs) :
    qidsFor code s = qs.map SubQueue.qid := by
  unfold qidsFor
  rw [hl]
  rfl

theorem qidsFor_none {code : String} {s : SSEState}
    (hl : lookupCode code s.connections = none) : qidsFor code s = [] := by
  unfold qidsFor
  rw [hl]
  rfl

theorem goodState_sub {s : SSEState} {att : List (String × Nat)} (code : String) (qid : Nat)
    (hg : GoodState s att) :
    GoodState (subscribe code qid s) (att ++ [(code, qid)]) := by
  obtain ⟨hnd, hcodes⟩ := hg
  unfold subscribe
  cases hl : lookupCode code s.connections with
  | some qs =>
    have hq : qs.map SubQueue.qid = attachedFor code att := by
      have h := (hcodes code).1
      rw [qidsFor_some hl] at h
      exact h
    constructor
    · show ((updateCode code (fun qs => qs ++ [(⟨qid, []⟩ : SubQueue)]) s.connections).map Prod.fst).Nodup
      rw [keys_updateCode]
      exact hnd
    · intro code'
      by_cases hc : code' = code
      · subst hc
        have hlu : lookupCode code' (updateCode code' (fun qs => qs ++ [(⟨qid, []⟩ : SubQueue)]) s.connections) =
            some (qs ++ [(⟨qid, []⟩ : SubQueue)]) := by
          rw [lookupCode_updateCode_self, hl]
          rfl
        constructor
        · show ((lookupCode code' (updateCode code' (fun qs => qs ++ [(⟨qid, []⟩ : SubQueue)]) s.connections)).getD []).map SubQueue.qid = _
          rw [hlu]
          show (qs ++ [(⟨qid, []⟩ : SubQueue)]).map SubQueue.qid = _
          rw [List.map_append, hq, attachedFor_append_self]
          rfl
        · intro qs' h
          rw [hlu] at h
          injection h with h'
          rw [← h']
          simp
      · have hlu : lookupCode code' (updateCode code (fun qs => qs ++ [(⟨qid, []⟩ : SubQueue)]) s.connections) =
            lookupCode code' s.connections := lookupCode_updateCode_ne hc _
        constructor
        · show ((lookupCode code' (updateCode code (fun qs => qs ++ [(⟨qid, []⟩ : SubQueue)]) s.connections)).getD []).map SubQueue.qid = _
          rw [hlu, attachedFor_append_ne qid hc]
          exact (hcodes code').1
        · intro qs' h
          rw [hlu] at h
          exact (hcodes code').2 qs' h
  | none =>
    have hatt : attachedFor code att = [] := by
      have h := (hcodes code).1
      rw [qidsFor_none hl] at h
      exact h.symm
    constructor
    · show ((s.connections ++ [(code, [(⟨qid, []⟩ : SubQueue)])]).map Prod.fst).Nodup
      rw [List.map_append]
      rw [List.nodup_append]
      refine ⟨hnd, by simp, ?_⟩
      intro a ha
      simp only [List.map_cons, List.map_nil, List.mem_singleton]
      intro haeq
      subst haeq
      exact not_mem_of_lookupCode_eq_none hl ha
    · intro code'
      by_cases hc : code' = code
      · subst hc
        have hlu : lookupCode code' (s.connections ++ [(code', [(⟨qid, []⟩ : SubQueue)])]) =
            some [(⟨qid, []⟩ : SubQueue)] := by
          rw [lookupCode_append_none _ hl]
          unfold lookupCode
          rw [if_pos rfl]
        constructor
        · show ((lookupCode code' (s.connections ++ [(code', [(⟨qid, []⟩ : SubQueue)])])).getD []).map SubQueue.qid = _
          rw [hlu, attachedFor_append_self, hatt]
          rfl
        · intro qs' h
          rw [hlu] at h
          injection h with h'
          rw [← h']
          simp
      · have hlu : lookupCode code' (s.connections ++ [(code, [(⟨qid, []⟩ : SubQueue)])]) =
            lookupCode code' s.connections := by
          cases hl' : lookupCode code' s.connections with
          | some v => exact lookupCode_append_some _ hl'
          | none =>
            rw [lookupCode_append_none _ hl']
            unfold lookupCode
            rw [if_neg (fun h => hc h.symm)]
            rfl
        constructor
        · show ((lookupCode code' (s.connections ++ [(code, [(⟨qid, []⟩ : SubQueue)])])).getD []).map SubQueue.qid = _
          rw [hlu, attachedFor_append_ne qid hc]
          exact (hcodes code').1
        · intro qs' h
          rw [hlu] at h
          exact (hcodes code').2 qs' h

theorem goodState_end {s : SSEState} {att : List (String × Nat)} (code : String) (qid : Nat)
    (hg : GoodState s att) (hmem : (code, qid) ∈ att) :
    GoodState (endStream code qid s) (removeFirstPair (code, qid) att) := by
  obtain ⟨hnd, hcodes⟩ := hg
  have hqmem : qid ∈ qidsFor code s := by
    rw [(hcodes code).1]
    exact mem_attachedFor hmem
  cases hl : lookupCode code s.connections with
  | none =>
    exfalso
    rw [qidsFor_none hl] at hqmem
    cases hqmem
  | some qs =>
    have hq : qs.map SubQueue.qid = attachedFor code att := by
      have h := (hcodes code).1
      rw [qidsFor_some hl] at h
      exact h
    have hlu : lookupCode code (updateCode code (removeFirstQid qid) s.connections) =
        some (removeFirstQid qid qs) := by
      rw [lookupCode_updateCode_self, hl]
      rfl
    have hndu : ((updateCode code (removeFirstQid qid) s.connections).map Prod.fst).Nodup := by
      rw [keys_updateCode]
      exact hnd
    cases hrm : removeFirstQid qid qs with
    | nil =>
      have hred : endStream code qid s =
          ⟨deleteCode code (updateCode code (removeFirstQid qid) s.connections)⟩ := by
        simp only [endStream]
        rw [hlu, hrm]
      rw [hred]
      constructor
      · exact List.Nodup.sublist (List.Sublist.map _ (deleteCode_sublist _ _)) hndu
      · intro code'
        by_cases hc : code' = code
        · subst hc
          have hld : lookupCode code'
              (deleteCode code' (updateCode code' (removeFirstQid qid) s.connections)) =
              none := lookupCode_deleteCode_self hndu
          constructor
          · show ((lookupCode code'
                (deleteCode code' (updateCode code' (removeFirstQid qid) s.connections))).getD
                  []).map SubQueue.qid = _
            rw [hld, attachedFor_removeFirstPair_self, ← hq, ← removeFirstQid_map, hrm]
            rfl
          · intro qs' h
            rw [hld] at h
            cases h
        · have hld : lookupCode code'
              (deleteCode code (updateCode code (removeFirstQid qid) s.connections)) =
              lookupCode code' s.connections := by
            rw [lookupCode_deleteCode_ne hc, lookupCode_updateCode_ne hc]
          constructor
          · show ((lookupCode code'
                (deleteCode code (updateCode code (removeFirstQid qid) s.connections))).getD
                  []).map SubQueue.qid = _
            rw [hld, attachedFor_removeFirstPair_ne qid hc]
            exact (hcodes code').1
          · intro qs' h
            rw [hld] at h
            exact (hcodes code').2 qs' h
    | cons a l =>
      have hred : endStream code qid s =
          ⟨updateCode code (removeFirstQid qid) s.connections⟩ := by
        simp only [endStream]
        rw [hlu, hrm]
      rw [hred]
      constructor
      · exact hndu
      · intro code'
        by_cases hc : code' = code
        · subst hc
          have hlu' : lookupCode code'
              (updateCode code' (removeFirstQid qid) s.connections) = some (a :: l) := by
            rw [hlu, hrm]
          constructor
          · show ((lookupCode code'
                (updateCode code' (removeFirstQid qid) s.connections)).getD
                  []).map SubQueue.qid = _
            rw [hlu']
            show (a :: l).map SubQueue.qid = _
            rw [← hrm, removeFirstQid_map, hq, attachedFor_removeFirstPair_self]
          · intro qs' h
            rw [hlu'] at h
            injection h with h'
            rw [← h']
            simp
        · have hlu' : lookupCode code'
              (updateCode code (removeFirstQid qid) s.connections) =
              lookupCode code' s.connections := lookupCode_updateCode_ne hc _
          constructor
          · show ((lookupCode code'
                (updateCode code (removeFirstQid qid) s.connections)).getD
                  []).map SubQueue.qid = _
            rw [hlu', attachedFor_removeFirstPair_ne qid hc]
            exact (hcodes code').1
          · intro qs' h
            rw [hlu'] at h
            exact (hcodes code').2 qs' h

theorem goodState_updateMap {s : SSEState} {att : List (String × Nat)} (code : String)
    (f : SubQueue → SubQueue) (hf : ∀ q, (f q).qid = q.qid)
    (hg : GoodState s att) :
    GoodState ⟨updateCode code (List.map f) s.connections⟩ att := by
  obtain ⟨hnd, hcodes⟩ := hg
  constructor
  · show ((updateCode code (List.map f) s.connections).map Prod.fst).Nodup
    rw [keys_updateCode]
    exact hnd
  · intro code'
    by_cases hc : code' = code
    · subst hc
      cases hl : lookupCode code' s.connections with
      | none =>
        have hlu : lookupCode code' (updateCode code' (List.map f) s.connections) = none := by
          rw [lookupCode_updateCode_self, hl]
          rfl
        constructor
        · show ((lookupCode code' (updateCode code' (List.map f) s.connections)).getD
              []).map SubQueue.qid = _
          rw [hlu]
          have h := (hcodes code').1
          rw [qidsFor_none hl] at h
          exact h
        · intro qs' h
          rw [hlu] at h
          cases h
      | some qs =>
        have hlu : lookupCode code' (updateCode code' (List.map f) s.connections) =
            some (qs.map f) := by
          rw [lookupCode_updateCode_self, hl]
          rfl
        constructor
        · show ((lookupCode code' (updateCode code' (List.map f) s.connections)).getD
              []).map SubQueue.qid = _
          rw [hlu]
          show (qs.map f).map SubQueue.qid = _
          rw [List.map_map]
          have hcomp : (SubQueue.qid ∘ f) = SubQueue.qid := funext (fun q => hf q)
          rw [hcomp]
          have h := (hcodes code').1
          rw [qidsFor_some hl] at h
          exact h
        · intro qs' h
          rw [hlu] at h
          injection h with h'
          intro hnil
          rw [← h'] at hnil
          exact (hcodes code').2 qs hl (List.map_eq_nil_iff.mp hnil)
    · have hlu : lookupCode code' (updateCode code (List.map f) s.connections) =
          lookupCode code' s.connections := lookupCode_updateCode_ne hc _
      constructor
      · show ((lookupCode code' (updateCode code (List.map f) s.connections)).getD
            []).map SubQueue.qid = _
        rw [hlu]
        exact (hcodes code').1
      · intro qs' h
        rw [hlu] at h
        exact (hcodes code').2 qs' h

theorem goodState_applyOp {s : SSEState} {att : List (String × Nat)} {op : SSEOp}
    (hg : GoodState s att) (hv : validOp att op = true) :
    GoodState (applyOp s op) (attachedStep att op) := by
  cases op with
  | sub code qid => exact goodState_sub code qid hg
  | endStream code qid =>
    have hmem : (code, qid) ∈ att := by
      simp only [validOp, decide_eq_true_eq] at hv
      exact hv
    exact goodState_end code qid hg hmem
  | bcast code msg =>
    show GoodState (broadcast code msg s) att
    unfold broadcast
    cases hl : lookupCode code s.connections with
    | none => exact hg
    | some qs =>
      exact goodState_updateMap code (fun q => ⟨q.qid, q.buf ++ [some msg]⟩) (fun _ => rfl) hg
  | closeAll code =>
    show GoodState (close_game code s) att
    unfold close_game
    cases hl : lookupCode code s.connections with
    | none => exact hg
    | some qs =>
      exact goodState_updateMap code (fun q => ⟨q.qid, q.buf ++ [none]⟩) (fun _ => rfl) hg

theorem goodState_foldl :
    ∀ (ops : List SSEOp) (s : SSEState) (att : List (String × Nat)),
      GoodState s att → validFrom att ops = true →
      GoodState (ops.foldl applyOp s) (ops.foldl attachedStep att) := by
  intro ops
  induction ops with
  | nil => intro s att hg _; exact hg
  | cons op ops ih =>
    intro s att hg hv
    unfold validFrom at hv
    rw [Bool.and_eq_true] at hv
    rw [List.foldl_cons, List.foldl_cons]
    exact ih _ _ (goodState_applyOp hg hv.1) hv.2

theorem goodState_empty : GoodState ⟨[]⟩ [] := by
  constructor
  · simp
  · intro code
    constructor
    · rfl
    · intro qs h
      simp [lookupCode] at h

theorem goodState_run {ops : List SSEOp} (hv : validFrom [] ops = true) :
    GoodState (runOps ops) (attachedAfter ops) :=
  goodState_foldl ops ⟨[]⟩ [] goodState_empty hv

/-- Claim C10: after any valid history of subscribe / stream-end /
broadcast / close operations (valid: fresh queue identities, each
stream ends at most once), `get_subscriber_count` for every code equals
the number of currently attached subscriber streams for that code —
subscribing appends exactly one queue (count rises by exactly one,
unconditionally), a stream's end removes exactly its own queue, and
when the count returns to zero the code's dict entry has been deleted,
so a subsequent broadcast for that code is a no-op on the state. -/
theorem subscriber_count_matches_attached :
    (∀ (code : String) (qid : Nat) (s : SSEState),
        get_subscriber_count code (subscribe code qid s) =
          get_subscriber_count code s + 1) ∧
    (∀ (ops : List SSEOp) (code msg : String), validFrom [] ops = true →
        get_subscriber_count code (runOps ops) =
          (attachedFor code (attachedAfter ops)).length ∧
        ((attachedFor code (attachedAfter ops)).length = 0 →
          lookupCode code (runOps ops).connections = none ∧
          broadcast code msg (runOps ops) = runOps ops)) := by
  constructor
  · intro code qid s
    unfold subscribe
    cases hl : lookupCode code s.connections with
    | some qs =>
      show ((lookupCode code
          (updateCode code (fun qs => qs ++ [(⟨qid, []⟩ : SubQueue)]) s.connections)).getD
            []).length = _
      rw [lookupCode_updateCode_self, hl]
      show (qs ++ [(⟨qid, []⟩ : SubQueue)]).length = _
      rw [List.length_append]
      unfold get_subscriber_count
      rw [hl]
      rfl
    | none =>
      show ((lookupCode code
          (s.connections ++ [(code, [(⟨qid, []⟩ : SubQueue)])])).getD []).length = _
      rw [lookupCode_append_none _ hl]
      unfold get_subscriber_count
      rw [hl]
      show ((if code = code then some [(⟨qid, []⟩ : SubQueue)] else
        lookupCode code []).getD []).length = _
      rw [if_pos rfl]
      rfl
  · intro ops code msg hv
    obtain ⟨hnd, hcodes⟩ := goodState_run hv
    have hcount : get_subscriber_count code (runOps ops) =
        (attachedFor code (attachedAfter ops)).length := by
      unfold get_subscriber_count
      rw [← (hcodes code).1]
      unfold qidsFor
      rw [List.length_map]
    refine ⟨hcount, ?_⟩
    intro hzero
    have hlnone : lookupCode code (runOps ops).connections = none := by
      cases hl : lookupCode code (runOps ops).connections with
      | none => rfl
      | some qs =>
        exfalso
        have hq := (hcodes code).1
        rw [qidsFor_some hl] at hq
        have hlen : qs.length = 0 := by
          rw [← List.length_map qs SubQueue.qid, hq]
          exact hzero
        exact (hcodes code).2 qs hl (List.length_eq_zero.mp hlen)
    refine ⟨hlnone, ?_⟩
    unfold broadcast
    rw [hlnone]

theorem subscriber_count_matches_attached_witness :
    validFrom [] [SSEOp.sub ("g") 0, SSEOp.endStream ("g") 0] = true ∧
    get_subscriber_count ("g") (runOps [SSEOp.sub ("g") 0, SSEOp.endStream ("g") 0]) =
      (attachedFor ("g") (attachedAfter [SSEOp.sub ("g") 0, SSEOp.endStream ("g") 0])).length :=
  ⟨by decide,
    (subscriber_count_matches_attached.2 [SSEOp.sub ("g") 0, SSEOp.endStream ("g") 0]
      ("g") ("m") (by decide)).1⟩

/-- Claim C2: the `MoveEvent` pydantic model (src/schemas.py) declares
only type, move_number, color, move_uci, move_san, comment,
was_fallback, board_fen and board_ascii; the commentary, audio-payload
and emotion keyword arguments that `run_game` passes when constructing
the event (game_engine.py lines 260–273) are undeclared and silently
dropped (pydantic `extra="ignore"` default), so two constructions
differing only in those four arguments yield the same event and the
serialized move event carries no commentary, audio or emotion fields —
contradicting the claim that every published move event carries them. -/
theorem move_event_drops_undeclared_fields :
    mkMoveEventEngine 1 Color.white ("e2e4") ("e4") none false ("FEN") ("BOARD")
        (some ("Wow!")) (some ("AUDIO64")) (some ("predator")) (some ("stone_wall")) =
      mkMoveEventEngine 1 Color.white ("e2e4") ("e4") none false ("FEN") ("BOARD")
        none none none none ∧
    ¬ (("commentary") ∈ moveEventFields) ∧
    ¬ (("commentary_audio") ∈ moveEventFields) ∧
    ¬ (("my_emotion") ∈ moveEventFields) ∧
    ¬ (("opponent_emotion") ∈ moveEventFields) ∧
    ("comment") ∈ moveEventFields ∧
    ("was_fallback") ∈ moveEventFields := by
  refine ⟨rfl, by decide, by decide, by decide, by decide, by decide, by decide⟩
